import Mathlib

/-!
Verification development for the mod-npc-beastmaster module
(src/src/NpcBeastmaster.cpp).  The definitions below are a shallow
embedding of the menu-driven pet catalog and tracked-pet lifecycle
engine: action-code ranges, catalog bucketing, main-menu eligibility
gating, browse pagination, the tracked-pet store with its caches, the
rename confirmation sub-protocol, and pet-name validation.
-/

namespace Beastmaster

/-! ## Action-code constants (BeastmasterRuntime::Gossip / Tracked) -/

def PageSize : Nat := 13
def PetsStart : Nat := 501
def ExoticStart : Nat := 601
def RareStart : Nat := 701
def RareExoticStart : Nat := 801
def PetEntryOffset : Nat := 901
def MainMenu : Nat := 50
def RemoveSkills : Nat := 80
def TrackedPetsMenu : Nat := 1000
def SummonBase : Nat := 2000
def RenameBase : Nat := 3000
def DeleteBase : Nat := 4000
def TrackedPageSize : Nat := 10

/-! Decode predicates (BeastmasterRuntime::IsBrowseNormal .. IsTrackedDelete). -/

def IsBrowseNormal (a : Nat) : Bool := decide (PetsStart ≤ a) && decide (a < ExoticStart)
def IsBrowseExotic (a : Nat) : Bool := decide (ExoticStart ≤ a) && decide (a < RareStart)
def IsBrowseRare (a : Nat) : Bool := decide (RareStart ≤ a) && decide (a < RareExoticStart)
def IsBrowseRareExotic (a : Nat) : Bool := decide (RareExoticStart ≤ a) && decide (a < PetEntryOffset)
def IsAdoptAction (a : Nat) : Bool := decide (PetEntryOffset ≤ a)
def IsTrackedMenu (a : Nat) : Bool := decide (TrackedPetsMenu ≤ a) && decide (a < SummonBase)
def IsTrackedSummon (a : Nat) : Bool := decide (SummonBase ≤ a) && decide (a < RenameBase)
def IsTrackedRename (a : Nat) : Bool := decide (RenameBase ≤ a) && decide (a < DeleteBase)
def IsTrackedDelete (a : Nat) : Bool := decide (DeleteBase ≤ a) && decide (a < DeleteBase + 1000)

/-! ## Gossip icon values (host enum GossipOptionIcon) -/

def GOSSIP_ICON_CHAT : Nat := 0
def GOSSIP_ICON_VENDOR : Nat := 1
def GOSSIP_ICON_TAXI : Nat := 2
def GOSSIP_ICON_TRAINER : Nat := 3
def GOSSIP_ICON_INTERACT_1 : Nat := 4
def GOSSIP_ICON_MONEY_BAG : Nat := 6
def GOSSIP_ICON_TALK : Nat := 7
def GOSSIP_ICON_BATTLE : Nat := 9

def CLASS_HUNTER : Nat := 3

/-! ## Catalog store (NpcBeastmaster::LoadSystem) -/

/-- One row of the beastmaster_tames world table. -/
structure TameRow where
  entry : Nat
  name : String
  family : Nat
  rarity : String
deriving DecidableEq

/-- In-memory catalog entry (struct PetInfo). -/
structure PetInfo where
  entry : Nat
  name : String
  family : Nat
  rarity : String
  icon : Nat
deriving DecidableEq

def TrainerIconFamilies : List Nat := [1, 2, 3, 4, 7, 8, 9, 10, 15, 20, 21, 30, 24, 31, 25, 34, 27]

def iconForFamily (family : Nat) : Nat :=
  if TrainerIconFamilies.contains family then GOSSIP_ICON_TRAINER else GOSSIP_ICON_VENDOR

def mkPetInfo (row : TameRow) : PetInfo :=
  ⟨row.entry, row.name, row.family, row.rarity, iconForFamily row.family⟩

inductive Bucket
  | Normal
  | Exotic
  | Rare
  | RareExotic
deriving DecidableEq

/-- The bucket chosen by the if chain in the LoadSystem row loop. -/
def classify (rs res : List Nat) (p : PetInfo) : Bucket :=
  if p.entry ∈ rs then Bucket.Rare
  else if p.entry ∈ res then Bucket.RareExotic
  else if p.rarity = "exotic" then Bucket.Exotic
  else Bucket.Normal

structure Buckets where
  all : List PetInfo
  normal : List PetInfo
  exotic : List PetInfo
  rare : List PetInfo
  rareExotic : List PetInfo
deriving DecidableEq

/-- The row loop of LoadSystem: each loaded row is pushed to allPets and to
exactly one of the four bucket lists, override sets first. -/
def loadBuckets (rs res : List Nat) : List TameRow → Buckets
  | [] => ⟨[], [], [], [], []⟩
  | row :: rest =>
    let p := mkPetInfo row
    let b := loadBuckets rs res rest
    if p.entry ∈ rs then { b with all := p :: b.all, rare := p :: b.rare }
    else if p.entry ∈ res then { b with all := p :: b.all, rareExotic := p :: b.rareExotic }
    else if p.rarity = "exotic" then { b with all := p :: b.all, exotic := p :: b.exotic }
    else { b with all := p :: b.all, normal := p :: b.normal }

/-! ## Main-menu eligibility gate (NpcBeastmaster::ShowMainMenu) -/

structure EligCfg where
  enable : Bool
  hunterOnly : Bool
  allowedClasses : List Nat
  allowedRaces : List Nat
  minLevel : Nat
  maxLevel : Nat
deriving DecidableEq

inductive MenuOutcome
  | disabledSilent
  | noPets
  | hunterOnlyRefusal
  | classRefusal
  | raceRefusal
  | minLevelRefusal
  | maxLevelRefusal
  | menuShown
deriving DecidableEq

/-- The eligibility checks of ShowMainMenu in source order.  `catalog` is the
in-memory pet list on entry; `reloaded` is the list after the one lazy
LoadSystem attempt that runs when the list is empty. -/
def showMainMenuGate (cfg : EligCfg) (catalog reloaded : List PetInfo)
    (cls race level : Nat) : MenuOutcome :=
  if !cfg.enable then MenuOutcome.disabledSilent
  else
    let pets := if catalog.isEmpty then reloaded else catalog
    if pets.isEmpty then MenuOutcome.noPets
    else if cfg.hunterOnly && !(cls == CLASS_HUNTER) then MenuOutcome.hunterOnlyRefusal
    else if !cfg.allowedClasses.isEmpty && !(cfg.allowedClasses.contains cls) then
      MenuOutcome.classRefusal
    else if !cfg.allowedRaces.isEmpty && !(cfg.allowedRaces.contains race) then
      MenuOutcome.raceRefusal
    else if decide (level < cfg.minLevel) && !(cfg.minLevel == 0) then
      MenuOutcome.minLevelRefusal
    else if !(cfg.maxLevel == 0) && decide (cfg.maxLevel < level) then
      MenuOutcome.maxLevelRefusal
    else MenuOutcome.menuShown

/-! ## Pet-name validation (IsValidPetName, IsProfane) -/

def apoChar : Char := Char.ofNat 39

/-- std isspace over the C locale character set. -/
def isSpaceC (c : Char) : Bool :=
  c == ' ' || c == '\t' || c == '\n' || c == '\x0b' || c == '\x0c' || c == '\r'

/-- The regex character class [A-Za-z]. -/
def isLetterA (c : Char) : Bool :=
  ('A' ≤ c && c ≤ 'Z') || ('a' ≤ c && c ≤ 'z')

/-- The regex middle character class: letters, space, hyphen, apostrophe. -/
def allowedMid (c : Char) : Bool :=
  isLetterA c || c == ' ' || c == '-' || c == apoChar

/-- Tail of the regex [A-Za-z][A-Za-z \x2d]*[A-Za-z] after the first
character: middle characters from the middle class, final character a
letter. -/
def nameCore : List Char → Bool
  | [] => false
  | [c] => isLetterA c
  | c :: c2 :: rest => allowedMid c && nameCore (c2 :: rest)

/-- Whole-string match of the pet-name regex. -/
def matchesNameRegex : List Char → Bool
  | [] => false
  | c :: rest => isLetterA c && nameCore rest

/-- Whether an end character (front or back) is whitespace. -/
def spaceEnd (o : Option Char) : Bool :=
  match o with
  | some c => isSpaceC c
  | none => false

/-- IsValidPetName: size 2..16, no whitespace at either end, and the regex. -/
def isValidPetName (s : List Char) : Bool :=
  if decide (s.length < 2) || decide (16 < s.length) then false
  else if spaceEnd s.head? || spaceEnd s.getLast? then false
  else matchesNameRegex s

def toLowerStr (s : List Char) : List Char := s.map Char.toLower

def isPrefList : List Char → List Char → Bool
  | [], _ => true
  | _ :: _, [] => false
  | p :: ps, c :: cs => p == c && isPrefList ps cs

/-- std string find: pat occurs somewhere inside s. -/
def hasSubstr : List Char → List Char → Bool
  | [], pat => isPrefList pat []
  | c :: cs, pat => isPrefList pat (c :: cs) || hasSubstr cs pat

/-- IsProfane: with the filter enabled, the lowercased name contains some
word of the (already lowercased) profanity list. -/
def isProfane (filterOn : Bool) (deny : List (List Char)) (name : List Char) : Bool :=
  if !filterOn then false
  else deny.any (fun bad => hasSubstr (toLowerStr name) bad)

/-- The acceptance test of the rename command handler:
not (not valid or profane). -/
def renameNameAccepted (filterOn : Bool) (deny : List (List Char)) (s : List Char) : Bool :=
  !(!isValidPetName s || isProfane filterOn deny s)

/-- Whether an end character (front or back) is a letter and not
whitespace. -/
def letterEnd (o : Option Char) : Bool :=
  match o with
  | some c => isLetterA c && !isSpaceC c
  | none => false

/-- Second definition for the refinement claim C7, written from the spec
wording: 2-16 characters, starts and ends with a letter and not with
whitespace, interior characters limited to letters, space, hyphen and
apostrophe, and no denylisted case-insensitive substring. -/
def specNameRule (deny : List (List Char)) (s : List Char) : Bool :=
  decide (2 ≤ s.length) && decide (s.length ≤ 16)
  && letterEnd s.head? && letterEnd s.getLast?
  && (s.drop 1).dropLast.all allowedMid
  && !(deny.any (fun bad => hasSubstr (toLowerStr s) bad))

/-- Trim of the rename command handler: strip leading then trailing
whitespace. -/
def trimFront (s : List Char) : List Char := s.dropWhile isSpaceC

def trimBack (s : List Char) : List Char := (s.reverse.dropWhile isSpaceC).reverse

def trim (s : List Char) : List Char := trimBack (trimFront s)

/-! ## Tracked-pet store (BeastmasterDB::TrackTamedPet and caches) -/

/-- One row of the beastmaster_tamed_pets characters table. -/
structure TrackedRow where
  owner : Nat
  entry : Nat
  name : String
  dateTamed : Nat
deriving DecidableEq

/-- BeastmasterDB::TrackTamedPet: SELECT for the (owner, entry) pair; if a
row exists return false, otherwise INSERT and return true. -/
def trackTamedPet (db : List TrackedRow) (owner entry : Nat) (name : String) (date : Nat) :
    List TrackedRow × Bool :=
  if db.any (fun r => r.owner == owner && r.entry == entry) then (db, false)
  else (db ++ [⟨owner, entry, name, date⟩], true)

def pairCount (db : List TrackedRow) (owner entry : Nat) : Nat :=
  (db.filter (fun r => r.owner == owner && r.entry == entry)).length

/-- Per-player slice of the module state: the tamed-pets rows (whole table,
rows carry their owner), the two derived caches of this player, the
ephemeral menu slot map and the rename-pending scratch values. -/
structure PState where
  db : List TrackedRow
  trackedCache : Option (List (Nat × String × Nat))
  tamedCache : Option (List Nat)
  slotMap : Option (List (Nat × Nat))
  expectRename : Option Bool
  renameEntry : Option Nat
deriving DecidableEq

/-! ## Rename confirmation sub-protocol (BeastMaster_CommandScript) -/

inductive RenameResult
  | notRenaming
  | usageEmpty
  | invalidName
  | renamed
deriving DecidableEq

/-- The UPDATE statement of the rename handler: set the name of the
(owner, target) row. -/
def renameDbUpdate (db : List TrackedRow) (owner target : Nat) (newName : List Char) :
    List TrackedRow :=
  db.map (fun r =>
    if r.owner = owner ∧ r.entry = target then { r with name := String.mk newName } else r)

/-- HandlePetnameRenameCommand: reject unless the pending flag is set and a
target entry is stored; trim the argument; empty means usage message; a
grammar or denylist failure leaves everything unchanged (flag stays
armed); success updates the row name, clears both scratch values and
invalidates the tracked-pets cache (which also drops the slot map). -/
def handlePetnameRename (filterOn : Bool) (deny : List (List Char)) (st : PState)
    (owner : Nat) (args : List Char) : PState × RenameResult :=
  match st.expectRename, st.renameEntry with
  | some true, some target =>
    let newName := trim args
    if newName.isEmpty then (st, RenameResult.usageEmpty)
    else if !isValidPetName newName || isProfane filterOn deny newName then
      (st, RenameResult.invalidName)
    else
      ({ st with db := renameDbUpdate st.db owner target newName,
                 expectRename := none, renameEntry := none,
                 trackedCache := none, slotMap := none }, RenameResult.renamed)
  | _, _ => (st, RenameResult.notRenaming)

/-- HandlePetnameCancelCommand: accepted only with the flag armed; clears
both scratch values unconditionally.  The Bool reports whether a rename
was pending. -/
def handlePetnameCancel (st : PState) : PState × Bool :=
  match st.expectRename with
  | some true => ({ st with expectRename := none, renameEntry := none }, true)
  | _ => (st, false)

/-! ## Browse-page rendering (GossipSelect browse branch, AddPetsToGossip) -/

structure GItem where
  icon : Nat
  label : String
  action : Nat
deriving DecidableEq

/-- The gossip item AddPetsToGossip emits for one catalog entry: a dead
placeholder when the entry is in the tamed set, an adoptable item
otherwise. -/
def itemFor (tamed : List Nat) (pet : PetInfo) : GItem :=
  if tamed.contains pet.entry then
    ⟨GOSSIP_ICON_CHAT, pet.name ++ " (Already Tamed)", 0⟩
  else
    ⟨pet.icon, pet.name, pet.entry + PetEntryOffset⟩

/-- The counting loop of AddPetsToGossip: emit the item for each pet whose
1-based count lies in the window of the requested page. -/
def addPetsLoop (tamed : List Nat) (page : Nat) : List PetInfo → Nat → List GItem
  | [], _ => []
  | pet :: rest, count =>
    if (page - 1) * PageSize < count ∧ count ≤ page * PageSize then
      itemFor tamed pet :: addPetsLoop tamed page rest (count + 1)
    else addPetsLoop tamed page rest (count + 1)

def addPetsToGossip (tamed : List Nat) (pets : List PetInfo) (page : Nat) : List GItem :=
  addPetsLoop tamed page pets 1

def backItem : GItem := ⟨GOSSIP_ICON_TALK, "Back..", MainMenu⟩

def prevItemN (page : Nat) : GItem :=
  ⟨GOSSIP_ICON_INTERACT_1, "Previous..", PetsStart + page - 2⟩

def nextItemN (page : Nat) : GItem :=
  ⟨GOSSIP_ICON_INTERACT_1, "Next..", PetsStart + page⟩

/-- maxPage as computed in every browse branch. -/
def browseMaxPage (n : Nat) : Nat :=
  n / PageSize + (if n % PageSize = 0 then 0 else 1)

/-- The browse-normal branch of GossipSelect: back item, previous and next
items guarded by the page bounds, then the page window of the bucket. -/
def browseNormal (tamed : List Nat) (normalPets : List PetInfo) (action : Nat) : List GItem :=
  let page := action - PetsStart + 1
  let maxPage := browseMaxPage normalPets.length
  [backItem]
    ++ (if 1 < page then [prevItemN page] else [])
    ++ (if page < maxPage then [nextItemN page] else [])
    ++ addPetsToGossip tamed normalPets page

/-! ## Tracked-pets menu (NpcBeastmaster::ShowTrackedPetsMenu) -/

/-- Insertion into a list sorted by date descending (models ORDER BY
date_tamed DESC). -/
def insertDesc (x : Nat × String × Nat) : List (Nat × String × Nat) → List (Nat × String × Nat)
  | [] => [x]
  | y :: ys => if y.2.2 ≤ x.2.2 then x :: y :: ys else y :: insertDesc x ys

def sortDesc : List (Nat × String × Nat) → List (Nat × String × Nat)
  | [] => []
  | x :: xs => insertDesc x (sortDesc xs)

/-- The tracked-pets query: the rows of this owner as (entry, name, date)
triples, most recently tamed first. -/
def listTracked (db : List TrackedRow) (owner : Nat) : List (Nat × String × Nat) :=
  sortDesc ((db.filter (fun r => r.owner == owner)).map (fun r => (r.entry, r.name, r.dateTamed)))

/-- Label FindPetInfo gives one tracked row in the menu. -/
def trackedLabel (catalog : List PetInfo) (entry : Nat) (name : String) : String :=
  match catalog.find? (fun p => p.entry == entry) with
  | some info => name ++ " [" ++ info.name ++ ", " ++ info.rarity ++ "]"
  | none => name

/-- The three gossip items (summon, rename, delete) per page slot. -/
def trackedSlotItems (catalog : List PetInfo) : List (Nat × String × Nat) → Nat → List GItem
  | [], _ => []
  | t :: rest, idx =>
    let label := trackedLabel catalog t.1 t.2.1
    ⟨GOSSIP_ICON_TAXI, "Summon: " ++ label, SummonBase + idx⟩
      :: ⟨GOSSIP_ICON_TRAINER, "Rename: " ++ label, RenameBase + idx⟩
      :: ⟨GOSSIP_ICON_BATTLE, "Delete: " ++ label, DeleteBase + idx⟩
      :: trackedSlotItems catalog rest (idx + 1)

/-- The slot map stored for the rendered page. -/
def trackedSlotMap : List (Nat × String × Nat) → Nat → List (Nat × Nat)
  | [], _ => []
  | t :: rest, idx => (idx, t.1) :: trackedSlotMap rest (idx + 1)

structure TrackedRender where
  page : Nat
  items : List GItem
deriving DecidableEq

/-- ShowTrackedPetsMenu: use the cached tracked list or rebuild it from the
store when tracking is enabled, render the page window (up to
TrackedPageSize slots, three items each) and overwrite the slot map. -/
def showTrackedPetsMenu (trackOn : Bool) (catalog : List PetInfo) (st : PState)
    (owner page : Nat) : PState × TrackedRender :=
  let tracked :=
    match st.trackedCache with
    | some l => l
    | none => if trackOn then listTracked st.db owner else []
  let cache' :=
    match st.trackedCache with
    | some l => some l
    | none => if trackOn then some (listTracked st.db owner) else none
  let window := (tracked.drop ((page - 1) * TrackedPageSize)).take TrackedPageSize
  ({ st with trackedCache := cache', slotMap := some (trackedSlotMap window 0) },
   ⟨page, trackedSlotItems catalog window 0⟩)

/-- The tracked-delete branch of GossipSelect: resolve the slot, DELETE the
(owner, entry) row, clear the tracked-pets cache (also dropping the slot
map), erase the entry from the tamed-entry cache when tracking is on,
recount the rows, clamp the page and re-render the tracked menu. -/
def gossipTrackedDelete (trackOn : Bool) (catalog : List PetInfo) (st : PState)
    (owner action : Nat) : PState × Option TrackedRender :=
  let idx := action - DeleteBase
  match (st.slotMap.getD []).lookup idx with
  | none => (st, none)
  | some entry =>
    let db' := st.db.filter (fun r => !(r.owner == owner && r.entry == entry))
    let tamed' := if trackOn then st.tamedCache.map (List.filter (fun e => !(e == entry)))
                  else st.tamedCache
    let st1 : PState := { st with db := db', trackedCache := none, slotMap := none,
                                  tamedCache := tamed' }
    let totalPets := (db'.filter (fun r => r.owner == owner)).length
    let page0 := idx / TrackedPageSize + 1
    let maxPage := (totalPets + TrackedPageSize - 1) / TrackedPageSize
    let page1 := if page0 > maxPage ∧ maxPage > 0 then maxPage else page0
    let page2 := if page1 = 0 then 1 else page1
    let out := showTrackedPetsMenu trackOn catalog st1 owner page2
    (out.1, some out.2)

/-! ## Adoption (NpcBeastmaster::CreatePet) -/

structure AdoptCtx where
  enable : Bool
  allowExotic : Bool
  hunterBMRequired : Bool
  trackTamedPets : Bool
  maxTrackedPets : Nat
  cls : Nat
  hasLivePet : Bool
  hasBMTalent : Bool
  petCreateOk : Bool
  newPetName : String
  newDate : Nat
deriving DecidableEq

inductive AdoptOutcome
  | disabled
  | mustAbandon
  | exoticNonHunter
  | exoticNeedsTalent
  | capacityReached
  | createFailed
  | adopted
deriving DecidableEq

def infoIsExotic (info : Option PetInfo) : Bool :=
  match info with
  | some i => i.rarity == "exotic"
  | none => false

def setInsert (l : List Nat) (x : Nat) : List Nat :=
  if l.contains x then l else l ++ [x]

/-- NpcBeastmaster::CreatePet: the guard chain in source order (enable,
live pet, exotic for non-hunters, exotic talent gate for hunters,
tracked-pet capacity), then pet instantiation and the optional tracked
insert with its tamed-cache update. -/
def createPetAction (ctx : AdoptCtx) (catalog : List PetInfo) (db : List TrackedRow)
    (tamedCache : Option (List Nat)) (owner action : Nat) :
    List TrackedRow × Option (List Nat) × AdoptOutcome :=
  if !ctx.enable then (db, tamedCache, AdoptOutcome.disabled)
  else
    let petEntry := action - PetEntryOffset
    let info := catalog.find? (fun p => p.entry == petEntry)
    if ctx.hasLivePet then (db, tamedCache, AdoptOutcome.mustAbandon)
    else if infoIsExotic info && !(ctx.cls == CLASS_HUNTER) && !ctx.allowExotic then
      (db, tamedCache, AdoptOutcome.exoticNonHunter)
    else if infoIsExotic info && ctx.cls == CLASS_HUNTER && ctx.hunterBMRequired
        && !ctx.hasBMTalent then
      (db, tamedCache, AdoptOutcome.exoticNeedsTalent)
    else if ctx.trackTamedPets && decide (0 < ctx.maxTrackedPets)
        && decide (ctx.maxTrackedPets ≤ (db.filter (fun r => r.owner == owner)).length) then
      (db, tamedCache, AdoptOutcome.capacityReached)
    else if !ctx.petCreateOk then (db, tamedCache, AdoptOutcome.createFailed)
    else if ctx.trackTamedPets then
      match trackTamedPet db owner petEntry ctx.newPetName ctx.newDate with
      | (db', true) => (db', some (setInsert (tamedCache.getD []) petEntry), AdoptOutcome.adopted)
      | (db', false) => (db', tamedCache, AdoptOutcome.adopted)
    else (db, tamedCache, AdoptOutcome.adopted)

def bucketList (b : Buckets) : Bucket → List PetInfo
  | Bucket.Normal => b.normal
  | Bucket.Exotic => b.exotic
  | Bucket.Rare => b.rare
  | Bucket.RareExotic => b.rareExotic

/-! ## Concrete fixtures used by the witnesses -/

def somePet : PetInfo := ⟨100, "Wolf", 1, "normal", 3⟩

def pets0 : List PetInfo := [⟨1, "Wolf", 1, "normal", 3⟩, ⟨2, "Boar", 1, "normal", 3⟩]

def rnSt0 : PState := ⟨[⟨7, 42, "Rex", 1⟩], none, none, none, some true, some 42⟩

def delSt0 : PState := ⟨[⟨7, 42, "Rex", 1⟩], some [(42, "Rex", 1)], some [42], some [(0, 42)], none, none⟩

def renSt0 : PState := ⟨[⟨7, 42, "Rex", 1⟩], some [(42, "Rex", 1)], some [42], some [(0, 42)], some true, some 42⟩

def ctx0 : AdoptCtx := ⟨true, false, true, true, 2, 1, false, false, true, "NewPet", 9⟩

def db2 : List TrackedRow := [⟨7, 10, "A", 1⟩, ⟨7, 11, "B", 2⟩]

/-! # Theorems -/

/-! ## C1: action-code range disjointness -/

/-- C1: the claim that all decode ranges are pairwise disjoint, with the
adopt range terminal and every other upper bound below its floor, fails
on the code: 1000 (the adoption code emitted for catalog entry 99, since
adoption items carry entry + PetEntryOffset) satisfies both IsAdoptAction
and IsTrackedMenu, and all three tracked slot ranges also lie inside the
adopt range, whose floor 901 is below the tracked upper bound 5000. -/
theorem c1_adopt_tracked_overlap :
    IsAdoptAction (99 + PetEntryOffset) = true
    ∧ IsTrackedMenu (99 + PetEntryOffset) = true
    ∧ IsTrackedSummon SummonBase = true ∧ IsAdoptAction SummonBase = true
    ∧ IsTrackedRename RenameBase = true ∧ IsAdoptAction RenameBase = true
    ∧ IsTrackedDelete DeleteBase = true ∧ IsAdoptAction DeleteBase = true
    ∧ PetEntryOffset < DeleteBase + 1000 := by decide

/-! ## C2: catalog bucketing -/

theorem loadBuckets_all (rs res : List Nat) (rows : List TameRow) :
    (loadBuckets rs res rows).all = rows.map mkPetInfo := by
  induction rows with
  | nil => rfl
  | cons row rest ih =>
    simp only [loadBuckets, List.map_cons]
    split_ifs <;> simp [ih]

theorem loadBuckets_count (rs res : List Nat) (rows : List TameRow) (q : PetInfo) :
    ((loadBuckets rs res rows).normal.count q + (loadBuckets rs res rows).exotic.count q)
      + ((loadBuckets rs res rows).rare.count q + (loadBuckets rs res rows).rareExotic.count q)
      = (rows.map mkPetInfo).count q := by
  induction rows with
  | nil => rfl
  | cons row rest ih =>
    simp only [loadBuckets, List.map_cons]
    split_ifs <;> simp [List.count_cons, ih] <;> omega

theorem mem_bucket_classify (rs res : List Nat) (rows : List TameRow) (b : Bucket) (q : PetInfo) :
    q ∈ bucketList (loadBuckets rs res rows) b → classify rs res q = b := by
  induction rows with
  | nil => cases b <;> simp [loadBuckets, bucketList]
  | cons row rest ih =>
    intro hq
    simp only [loadBuckets] at hq
    by_cases h1 : (mkPetInfo row).entry ∈ rs
    · rw [if_pos h1] at hq
      cases b with
      | Rare =>
        simp only [bucketList, List.mem_cons] at hq
        rcases hq with rfl | hq'
        · simp [classify, h1]
        · exact ih hq'
      | Normal => exact ih (by simpa [bucketList] using hq)
      | Exotic => exact ih (by simpa [bucketList] using hq)
      | RareExotic => exact ih (by simpa [bucketList] using hq)
    · rw [if_neg h1] at hq
      by_cases h2 : (mkPetInfo row).entry ∈ res
      · rw [if_pos h2] at hq
        cases b with
        | RareExotic =>
          simp only [bucketList, List.mem_cons] at hq
          rcases hq with rfl | hq'
          · simp [classify, h1, h2]
          · exact ih hq'
        | Normal => exact ih (by simpa [bucketList] using hq)
        | Exotic => exact ih (by simpa [bucketList] using hq)
        | Rare => exact ih (by simpa [bucketList] using hq)
      · rw [if_neg h2] at hq
        by_cases h3 : (mkPetInfo row).rarity = "exotic"
        · rw [if_pos h3] at hq
          cases b with
          | Exotic =>
            simp only [bucketList, List.mem_cons] at hq
            rcases hq with rfl | hq'
            · simp [classify, h1, h2, h3]
            · exact ih hq'
          | Normal => exact ih (by simpa [bucketList] using hq)
          | Rare => exact ih (by simpa [bucketList] using hq)
          | RareExotic => exact ih (by simpa [bucketList] using hq)
        · rw [if_neg h3] at hq
          cases b with
          | Normal =>
            simp only [bucketList, List.mem_cons] at hq
            rcases hq with rfl | hq'
            · simp [classify, h1, h2, h3]
            · exact ih hq'
          | Exotic => exact ih (by simpa [bucketList] using hq)
          | Rare => exact ih (by simpa [bucketList] using hq)
          | RareExotic => exact ih (by simpa [bucketList] using hq)

/-- C2: the LoadSystem row loop is a total bucketing: each loaded row lands
in exactly one of the four bucket lists (the per-element counts add up to
the input count), membership in a bucket agrees with the priority
classifier, and the classifier gives the override sets precedence over
the intrinsic rarity field. -/
theorem c2_bucket_partition (rs res : List Nat) (rows : List TameRow) (q : PetInfo) :
    (((loadBuckets rs res rows).normal.count q + (loadBuckets rs res rows).exotic.count q)
      + ((loadBuckets rs res rows).rare.count q + (loadBuckets rs res rows).rareExotic.count q)
      = (rows.map mkPetInfo).count q)
    ∧ (∀ b : Bucket, q ∈ bucketList (loadBuckets rs res rows) b → classify rs res q = b)
    ∧ (classify rs res q = Bucket.Rare ↔ q.entry ∈ rs)
    ∧ (classify rs res q = Bucket.RareExotic ↔ q.entry ∉ rs ∧ q.entry ∈ res)
    ∧ (classify rs res q = Bucket.Exotic
        ↔ q.entry ∉ rs ∧ q.entry ∉ res ∧ q.rarity = "exotic")
    ∧ (classify rs res q = Bucket.Normal
        ↔ q.entry ∉ rs ∧ q.entry ∉ res ∧ q.rarity ≠ "exotic") := by
  refine ⟨loadBuckets_count rs res rows q, fun b => mem_bucket_classify rs res rows b q,
    ?_, ?_, ?_, ?_⟩ <;>
    (unfold classify; split_ifs <;> simp_all)

theorem c2_witness :
    classify [7] [8] ⟨7, "x", 1, "exotic", 3⟩ = Bucket.Rare ∧ (7 : Nat) ∈ [7] :=
  ⟨(c2_bucket_partition [7] [8] [] ⟨7, "x", 1, "exotic", 3⟩).2.2.1.mpr (by decide), by decide⟩

/-! ## C9: TryTrack idempotence -/

/-- C9: TrackTamedPet inserts iff no (owner, entry) row exists and reports
whether it inserted; a second call for the same pair reports not-added,
changes nothing, and exactly one row for the pair exists afterwards. -/
theorem c9_trackTamedPet_idempotent (db : List TrackedRow) (owner entry : Nat)
    (n1 n2 : String) (d1 d2 : Nat) :
    ((trackTamedPet db owner entry n1 d1).2 = true
        ↔ ∀ r ∈ db, ¬(r.owner = owner ∧ r.entry = entry))
    ∧ ((trackTamedPet db owner entry n1 d1).2 = false
        → (trackTamedPet db owner entry n1 d1).1 = db)
    ∧ ((trackTamedPet db owner entry n1 d1).2 = true
        → (trackTamedPet db owner entry n1 d1).1 = db ++ [⟨owner, entry, n1, d1⟩])
    ∧ (trackTamedPet (trackTamedPet db owner entry n1 d1).1 owner entry n2 d2).2 = false
    ∧ (trackTamedPet (trackTamedPet db owner entry n1 d1).1 owner entry n2 d2).1
        = (trackTamedPet db owner entry n1 d1).1
    ∧ (pairCount db owner entry = 0
        → pairCount (trackTamedPet (trackTamedPet db owner entry n1 d1).1 owner entry n2 d2).1
            owner entry = 1) := by
  by_cases h : db.any (fun r => r.owner == owner && r.entry == entry) = true
  · obtain ⟨r0, hr0, hp0⟩ := List.any_eq_true.mp h
    have hr0' : r0.owner = owner ∧ r0.entry = entry := by
      simpa [Bool.and_eq_true, beq_iff_eq] using hp0
    have hmem : ¬ ∀ r ∈ db, ¬(r.owner = owner ∧ r.entry = entry) :=
      fun hall => hall r0 hr0 hr0'
    have hcount : pairCount db owner entry ≠ 0 := by
      have hmemf : r0 ∈ db.filter (fun r => r.owner == owner && r.entry == entry) :=
        List.mem_filter.mpr ⟨hr0, hp0⟩
      simp only [pairCount]
      intro hlen
      rw [List.length_eq_zero] at hlen
      rw [hlen] at hmemf
      exact (List.not_mem_nil r0) hmemf
    have heq : trackTamedPet db owner entry n1 d1 = (db, false) := by
      unfold trackTamedPet
      rw [if_pos h]
    have heq2 : trackTamedPet db owner entry n2 d2 = (db, false) := by
      unfold trackTamedPet
      rw [if_pos h]
    refine ⟨?_, ?_, ?_, ?_, ?_, ?_⟩
    · rw [heq]
      exact ⟨fun hx => by simp at hx, fun hall => (hmem hall).elim⟩
    · rw [heq]; exact fun _ => rfl
    · rw [heq]; exact fun hx => by simp at hx
    · rw [heq]
      show (trackTamedPet db owner entry n2 d2).2 = false
      rw [heq2]
    · rw [heq]
      show (trackTamedPet db owner entry n2 d2).1 = db
      rw [heq2]
    · exact fun hc => (hcount hc).elim
  · have hall : ∀ r ∈ db, ¬(r.owner = owner ∧ r.entry = entry) := by
      simp only [List.any_eq_true, Bool.and_eq_true, beq_iff_eq] at h
      push_neg at h
      exact fun r hr hc => h r hr hc.1 hc.2
    have heq : trackTamedPet db owner entry n1 d1
        = (db ++ [⟨owner, entry, n1, d1⟩], true) := by
      unfold trackTamedPet
      rw [if_neg h]
    have h2 : (db ++ [(⟨owner, entry, n1, d1⟩ : TrackedRow)]).any
        (fun r => r.owner == owner && r.entry == entry) = true := by
      simp [List.any_append]
    have heq2 : trackTamedPet (db ++ [⟨owner, entry, n1, d1⟩]) owner entry n2 d2
        = (db ++ [⟨owner, entry, n1, d1⟩], false) := by
      unfold trackTamedPet
      rw [if_pos h2]
    refine ⟨?_, ?_, ?_, ?_, ?_, ?_⟩
    · rw [heq]; exact ⟨fun _ => hall, fun _ => rfl⟩
    · rw [heq]; exact fun hx => by simp at hx
    · rw [heq]; exact fun _ => rfl
    · rw [heq]
      show (trackTamedPet (db ++ [⟨owner, entry, n1, d1⟩]) owner entry n2 d2).2 = false
      rw [heq2]
    · rw [heq]
      show (trackTamedPet (db ++ [⟨owner, entry, n1, d1⟩]) owner entry n2 d2).1
          = db ++ [⟨owner, entry, n1, d1⟩]
      rw [heq2]
    · intro hcnt
      have hfil : db.filter (fun r => r.owner == owner && r.entry == entry) = [] := by
        simpa [pairCount, List.length_eq_zero] using hcnt
      have hdb2 : (trackTamedPet (trackTamedPet db owner entry n1 d1).1 owner entry n2 d2).1
          = db ++ [⟨owner, entry, n1, d1⟩] := by
        rw [heq]
        show (trackTamedPet (db ++ [⟨owner, entry, n1, d1⟩]) owner entry n2 d2).1
            = db ++ [⟨owner, entry, n1, d1⟩]
        rw [heq2]
      rw [hdb2]
      simp [pairCount, List.filter_append, hfil]

theorem c9_witness :
    pairCount [] 7 42 = 0
    ∧ pairCount (trackTamedPet (trackTamedPet [] 7 42 "Rex" 1).1 7 42 "Rex" 2).1 7 42 = 1 :=
  ⟨rfl, (c9_trackTamedPet_idempotent [] 7 42 "Rex" "Rex" 1 2).2.2.2.2.2 rfl⟩

/-! ## C3: main-menu eligibility order -/

/-- C3 counterexample: with hunter-only mode on and a non-empty allowed-class
set that lacks the hunter class, a hunter is refused at the allowed-class
check, although the claim says that under hunter-only mode a hunter is not
additionally subject to the allowed-class set (so the gate should fall
through to the race and level checks and show the menu here). -/
theorem c3_counterexample :
    showMainMenuGate ⟨true, true, [1], [], 0, 0⟩ [somePet] [] CLASS_HUNTER 1 80
        = MenuOutcome.classRefusal
    ∧ showMainMenuGate ⟨true, true, [1], [], 0, 0⟩ [somePet] [] CLASS_HUNTER 1 80
        ≠ MenuOutcome.menuShown := by decide

/-- C3 (amended): the gate evaluates, in this fixed order, module enabled;
catalog non-empty after one lazy reload attempt; hunter-only class
restriction; allowed-class membership (applied to every player, hunters
under hunter-only mode included); allowed-race membership; minimum level
(0 disables); maximum level (0 disables) — and the outcome is the refusal
of the first failing check, with the menu shown iff all checks pass. -/
theorem c3_gate_first_failing (cfg : EligCfg) (catalog reloaded : List PetInfo)
    (cls race level : Nat) :
    (showMainMenuGate cfg catalog reloaded cls race level = MenuOutcome.disabledSilent
      ↔ cfg.enable = false)
    ∧ (showMainMenuGate cfg catalog reloaded cls race level = MenuOutcome.noPets
      ↔ cfg.enable = true ∧ (if catalog.isEmpty then reloaded else catalog) = [])
    ∧ (showMainMenuGate cfg catalog reloaded cls race level = MenuOutcome.hunterOnlyRefusal
      ↔ cfg.enable = true ∧ (if catalog.isEmpty then reloaded else catalog) ≠ []
        ∧ cfg.hunterOnly = true ∧ cls ≠ CLASS_HUNTER)
    ∧ (showMainMenuGate cfg catalog reloaded cls race level = MenuOutcome.classRefusal
      ↔ cfg.enable = true ∧ (if catalog.isEmpty then reloaded else catalog) ≠ []
        ∧ ¬(cfg.hunterOnly = true ∧ cls ≠ CLASS_HUNTER)
        ∧ cfg.allowedClasses ≠ [] ∧ cls ∉ cfg.allowedClasses)
    ∧ (showMainMenuGate cfg catalog reloaded cls race level = MenuOutcome.raceRefusal
      ↔ cfg.enable = true ∧ (if catalog.isEmpty then reloaded else catalog) ≠ []
        ∧ ¬(cfg.hunterOnly = true ∧ cls ≠ CLASS_HUNTER)
        ∧ ¬(cfg.allowedClasses ≠ [] ∧ cls ∉ cfg.allowedClasses)
        ∧ cfg.allowedRaces ≠ [] ∧ race ∉ cfg.allowedRaces)
    ∧ (showMainMenuGate cfg catalog reloaded cls race level = MenuOutcome.minLevelRefusal
      ↔ cfg.enable = true ∧ (if catalog.isEmpty then reloaded else catalog) ≠ []
        ∧ ¬(cfg.hunterOnly = true ∧ cls ≠ CLASS_HUNTER)
        ∧ ¬(cfg.allowedClasses ≠ [] ∧ cls ∉ cfg.allowedClasses)
        ∧ ¬(cfg.allowedRaces ≠ [] ∧ race ∉ cfg.allowedRaces)
        ∧ cfg.minLevel ≠ 0 ∧ level < cfg.minLevel)
    ∧ (showMainMenuGate cfg catalog reloaded cls race level = MenuOutcome.maxLevelRefusal
      ↔ cfg.enable = true ∧ (if catalog.isEmpty then reloaded else catalog) ≠ []
        ∧ ¬(cfg.hunterOnly = true ∧ cls ≠ CLASS_HUNTER)
        ∧ ¬(cfg.allowedClasses ≠ [] ∧ cls ∉ cfg.allowedClasses)
        ∧ ¬(cfg.allowedRaces ≠ [] ∧ race ∉ cfg.allowedRaces)
        ∧ ¬(cfg.minLevel ≠ 0 ∧ level < cfg.minLevel)
        ∧ cfg.maxLevel ≠ 0 ∧ cfg.maxLevel < level)
    ∧ (showMainMenuGate cfg catalog reloaded cls race level = MenuOutcome.menuShown
      ↔ cfg.enable = true ∧ (if catalog.isEmpty then reloaded else catalog) ≠ []
        ∧ ¬(cfg.hunterOnly = true ∧ cls ≠ CLASS_HUNTER)
        ∧ ¬(cfg.allowedClasses ≠ [] ∧ cls ∉ cfg.allowedClasses)
        ∧ ¬(cfg.allowedRaces ≠ [] ∧ race ∉ cfg.allowedRaces)
        ∧ ¬(cfg.minLevel ≠ 0 ∧ level < cfg.minLevel)
        ∧ ¬(cfg.maxLevel ≠ 0 ∧ cfg.maxLevel < level)) := by
  simp only [showMainMenuGate]
  split_ifs with h1 h2 h3 h4 h5 h6 h7 <;>
    simp_all [List.isEmpty_iff, List.contains, List.elem_iff, Bool.not_eq_true,
      Bool.and_eq_true, beq_iff_eq, decide_eq_true_eq, Bool.not_eq_true'] <;>
    first
      | tauto
      | omega

/-! ## C4: rename confirmation sub-protocol -/

theorem handlePetnameRename_pending (filterOn : Bool) (deny : List (List Char))
    (st : PState) (owner : Nat) (args : List Char) (target : Nat)
    (hp : st.expectRename = some true) (ht : st.renameEntry = some target) :
    handlePetnameRename filterOn deny st owner args =
      (if (trim args).isEmpty then (st, RenameResult.usageEmpty)
       else if !isValidPetName (trim args) || isProfane filterOn deny (trim args) then
         (st, RenameResult.invalidName)
       else ({ st with db := renameDbUpdate st.db owner target (trim args),
                       expectRename := none, renameEntry := none,
                       trackedCache := none, slotMap := none },
             RenameResult.renamed)) := by
  obtain ⟨db0, tc0, tac0, sm0, er0, re0⟩ := st
  change er0 = some true at hp
  change re0 = some target at ht
  subst hp
  subst ht
  rfl

theorem handlePetnameRename_notPending (filterOn : Bool) (deny : List (List Char))
    (st : PState) (owner : Nat) (args : List Char)
    (h : st.expectRename ≠ some true ∨ st.renameEntry = none) :
    handlePetnameRename filterOn deny st owner args = (st, RenameResult.notRenaming) := by
  obtain ⟨db0, tc0, tac0, sm0, er0, re0⟩ := st
  change er0 ≠ some true ∨ re0 = none at h
  cases er0 with
  | none => rfl
  | some b =>
    cases b with
    | false => rfl
    | true =>
      cases re0 with
      | none => rfl
      | some t =>
        rcases h with h | h
        · exact absurd rfl h
        · cases h

/-- C4: the confirm command is accepted only while a rename is pending (flag
armed and target stored); it trims the supplied name; a grammar or
denylist failure leaves the state, and hence the armed flag, unchanged; a
successful rename updates the row for the stored target with the trimmed
name and clears flag and target; the cancel command is accepted only
while a rename is pending and clears the flag unconditionally. -/
theorem c4_rename_protocol (filterOn : Bool) (deny : List (List Char)) (st : PState)
    (owner : Nat) (args : List Char) (target : Nat) :
    (st.expectRename = some true → st.renameEntry = some target →
       trim args ≠ [] →
       (isValidPetName (trim args) = false ∨ isProfane filterOn deny (trim args) = true) →
       handlePetnameRename filterOn deny st owner args = (st, RenameResult.invalidName))
    ∧ (st.expectRename = some true → st.renameEntry = some target →
       trim args ≠ [] → isValidPetName (trim args) = true →
       isProfane filterOn deny (trim args) = false →
       (handlePetnameRename filterOn deny st owner args).2 = RenameResult.renamed
       ∧ (handlePetnameRename filterOn deny st owner args).1.expectRename = none
       ∧ (handlePetnameRename filterOn deny st owner args).1.renameEntry = none
       ∧ (handlePetnameRename filterOn deny st owner args).1.db
           = st.db.map (fun r => if r.owner = owner ∧ r.entry = target
               then { r with name := String.mk (trim args) } else r))
    ∧ ((st.expectRename ≠ some true ∨ st.renameEntry = none) →
       handlePetnameRename filterOn deny st owner args = (st, RenameResult.notRenaming))
    ∧ (st.expectRename = some true →
       handlePetnameCancel st
         = ({ st with expectRename := none, renameEntry := none }, true))
    ∧ (st.expectRename ≠ some true → handlePetnameCancel st = (st, false)) := by
  refine ⟨?_, ?_, ?_, ?_, ?_⟩
  · intro hp ht hne hbad
    rw [handlePetnameRename_pending filterOn deny st owner args target hp ht]
    have hnid : ¬(trim args).isEmpty = true := by
      simpa [List.isEmpty_iff] using hne
    rw [if_neg hnid]
    have hbad' : (!isValidPetName (trim args) || isProfane filterOn deny (trim args)) = true := by
      rcases hbad with hbad | hbad <;> simp [hbad]
    rw [if_pos hbad']
  · intro hp ht hne hval hprof
    rw [handlePetnameRename_pending filterOn deny st owner args target hp ht]
    have hnid : ¬(trim args).isEmpty = true := by
      simpa [List.isEmpty_iff] using hne
    rw [if_neg hnid]
    have hok : ¬(!isValidPetName (trim args) || isProfane filterOn deny (trim args)) = true := by
      simp [hval, hprof]
    rw [if_neg hok]
    exact ⟨rfl, rfl, rfl, rfl⟩
  · exact handlePetnameRename_notPending filterOn deny st owner args
  · intro hp
    obtain ⟨db0, tc0, tac0, sm0, er0, re0⟩ := st
    change er0 = some true at hp
    subst hp
    rfl
  · intro hnp
    obtain ⟨db0, tc0, tac0, sm0, er0, re0⟩ := st
    change er0 ≠ some true at hnp
    cases er0 with
    | none => rfl
    | some b =>
      cases b with
      | false => rfl
      | true => exact absurd rfl hnp

theorem c7_letter_not_space (c : Char) (h : isLetterA c = true) : isSpaceC c = false := by
  cases hs : isSpaceC c
  · rfl
  · exfalso
    simp only [isSpaceC, Bool.or_eq_true, beq_iff_eq] at hs
    rcases hs with ((((rfl | rfl) | rfl) | rfl) | rfl) | rfl <;> exact absurd h (by decide)

theorem nameCore_iff (t : List Char) :
    nameCore t = true ↔
      ((∃ c, t.getLast? = some c ∧ isLetterA c = true)
        ∧ ∀ c ∈ t.dropLast, allowedMid c = true) := by
  induction t with
  | nil => simp [nameCore]
  | cons c rest ih =>
    cases rest with
    | nil => simp [nameCore]
    | cons c2 rest2 =>
      rw [show nameCore (c :: c2 :: rest2) = (allowedMid c && nameCore (c2 :: rest2)) from rfl,
        Bool.and_eq_true, ih, List.getLast?_cons_cons, List.dropLast_cons₂]
      constructor
      · rintro ⟨hmid, hlast, hall⟩
        refine ⟨hlast, ?_⟩
        intro x hx
        rcases List.mem_cons.mp hx with rfl | hx'
        · exact hmid
        · exact hall x hx'
      · rintro ⟨hlast, hall⟩
        exact ⟨hall c (List.mem_cons_self c _), hlast,
          fun x hx => hall x (List.mem_cons_of_mem c hx)⟩

theorem letterEnd_iff (o : Option Char) :
    letterEnd o = true ↔ (∃ c, o = some c ∧ isLetterA c = true) := by
  cases o with
  | none => simp [letterEnd]
  | some c =>
    simp only [letterEnd, Bool.and_eq_true, Bool.not_eq_true']
    constructor
    · rintro ⟨hl, _⟩
      exact ⟨c, rfl, hl⟩
    · rintro ⟨d, hd, hl⟩
      injection hd with hcd
      subst hcd
      exact ⟨hl, c7_letter_not_space c hl⟩

theorem isValidPetName_iff (s : List Char) :
    isValidPetName s = true ↔
      (2 ≤ s.length ∧ s.length ≤ 16
        ∧ (∃ c, s.head? = some c ∧ isLetterA c = true)
        ∧ (∃ c, s.getLast? = some c ∧ isLetterA c = true)
        ∧ ∀ c ∈ (s.drop 1).dropLast, allowedMid c = true) := by
  cases s with
  | nil => simp [isValidPetName]
  | cons c rest =>
    cases rest with
    | nil =>
      constructor
      · intro h
        simp [isValidPetName] at h
      · rintro ⟨h2, _⟩
        simp at h2
    | cons c2 rest2 =>
      obtain ⟨d, hd⟩ : ∃ d, (c2 :: rest2).getLast? = some d := by
        cases h : (c2 :: rest2).getLast? with
        | some x => exact ⟨x, rfl⟩
        | none => exact absurd (List.getLast?_eq_none_iff.mp h) (by simp)
      have hd' : (c :: c2 :: rest2).getLast? = some d := by
        rw [List.getLast?_cons_cons, hd]
      simp only [isValidPetName, List.head?_cons, hd', spaceEnd]
      split_ifs with hsz hsp
      · simp only [Bool.or_eq_true, decide_eq_true_eq] at hsz
        constructor
        · intro h
          exact absurd h (by decide)
        · rintro ⟨h2, h16, _⟩
          rcases hsz with h | h <;> omega
      · constructor
        · intro h
          exact absurd h (by decide)
        · rintro ⟨_, _, ⟨a, ha, hla⟩, ⟨b, hb, hlb⟩, _⟩
          injection ha with hac
          injection hb with hbd
          subst hac
          subst hbd
          simp only [Bool.or_eq_true] at hsp
          rcases hsp with h | h
          · rw [c7_letter_not_space c hla] at h
            exact absurd h (by decide)
          · rw [c7_letter_not_space d hlb] at h
            exact absurd h (by decide)
      · rw [show matchesNameRegex (c :: c2 :: rest2)
              = (isLetterA c && nameCore (c2 :: rest2)) from rfl,
          Bool.and_eq_true, nameCore_iff, hd]
        simp only [Bool.or_eq_true, decide_eq_true_eq, not_or, not_lt] at hsz
        constructor
        · rintro ⟨hc, ⟨b, hb, hlb⟩, hmid⟩
          injection hb with hbd
          subst hbd
          refine ⟨hsz.1, hsz.2, ⟨c, rfl, hc⟩, ⟨d, rfl, hlb⟩, ?_⟩
          intro x hx
          apply hmid
          simpa using hx
        · rintro ⟨_, _, ⟨a, ha, hla⟩, ⟨b, hb, hlb⟩, hmid⟩
          injection ha with hac
          injection hb with hbd
          subst hac
          subst hbd
          refine ⟨hla, ⟨d, rfl, hlb⟩, ?_⟩
          intro x hx
          apply hmid
          simpa using hx

/-- C7: a candidate pet name passes the rename check iff it satisfies the
spec rule (2-16 characters, letter at both ends, interior limited to
letters, space, hyphen and apostrophe, no whitespace at the ends, no
denylisted case-insensitive substring); and the spec examples: Al and
Al-Tair accepted, A, Al1 and raw " Al " rejected (the latter accepted
after trim), and a grammar-valid name containing a denylisted word is
rejected while the same name passes with an empty denylist. -/
theorem c7_name_validation (deny : List (List Char)) (s : List Char) :
    renameNameAccepted true deny s = specNameRule deny s
    ∧ renameNameAccepted true [] ("Al".toList) = true
    ∧ renameNameAccepted true [] ("Al-Tair".toList) = true
    ∧ renameNameAccepted true [] ("A".toList) = false
    ∧ renameNameAccepted true [] ("Al1".toList) = false
    ∧ renameNameAccepted true [] (" Al ".toList) = false
    ∧ renameNameAccepted true [] (trim (" Al ".toList)) = true
    ∧ renameNameAccepted true ["bad".toList] ("Abadon".toList) = false
    ∧ renameNameAccepted true [] ("Abadon".toList) = true := by
  refine ⟨?_, by decide, by decide, by decide, by decide, by decide, by decide,
    by decide, by decide⟩
  apply Bool.coe_iff_coe.mp
  have hprofeq : isProfane true deny s
      = deny.any (fun bad => hasSubstr (toLowerStr s) bad) := by
    rw [isProfane, if_neg (by decide)]
  rw [renameNameAccepted, specNameRule, hprofeq]
  simp only [Bool.or_eq_false_iff, Bool.not_eq_false, Bool.not_eq_false',
    Bool.and_eq_true, Bool.not_eq_true', decide_eq_true_eq, letterEnd_iff,
    List.all_eq_true]
  rw [isValidPetName_iff]
  constructor
  · rintro ⟨⟨h2, h16, hh, hl, hmid⟩, hprof⟩
    exact ⟨⟨⟨⟨⟨h2, h16⟩, hh⟩, hl⟩, hmid⟩, hprof⟩
  · rintro ⟨⟨⟨⟨⟨h2, h16⟩, hh⟩, hl⟩, hmid⟩, hprof⟩
    exact ⟨⟨h2, h16, hh, hl, hmid⟩, hprof⟩

theorem c4_witness :
    (handlePetnameRename true [] rnSt0 7 ("Fluffy".toList)).2 = RenameResult.renamed
    ∧ (handlePetnameRename true [] rnSt0 7 ("Fluffy".toList)).1.expectRename = none
    ∧ (handlePetnameRename true [] rnSt0 7 ("Fluffy".toList)).1.renameEntry = none
    ∧ (handlePetnameRename true [] rnSt0 7 ("Fluffy".toList)).1.db
        = rnSt0.db.map (fun r => if r.owner = 7 ∧ r.entry = 42
            then { r with name := String.mk (trim ("Fluffy".toList)) } else r) :=
  (c4_rename_protocol true [] rnSt0 7 ("Fluffy".toList) 42).2.1 rfl rfl
    (by decide) (by decide) (by decide)

/-! ## C8: tracked-pet capacity -/

/-- C8: with tracking enabled and a positive cap, an adoption attempt by a
player whose tracked-row count has reached the cap (and who passes the
earlier guards: module enabled, no live pet, entry not exotic) is
answered with the capacity refusal, no pet is instantiated, and neither
the tracked-pet table nor the tamed-entry cache changes. -/
theorem c8_capacity (ctx : AdoptCtx) (catalog : List PetInfo) (db : List TrackedRow)
    (tamedCache : Option (List Nat)) (owner action : Nat)
    (hen : ctx.enable = true)
    (hlive : ctx.hasLivePet = false)
    (hexo : infoIsExotic (catalog.find? (fun p => p.entry == action - PetEntryOffset)) = false)
    (htrack : ctx.trackTamedPets = true)
    (hcap : 0 < ctx.maxTrackedPets)
    (hcount : ctx.maxTrackedPets ≤ (db.filter (fun r => r.owner == owner)).length) :
    createPetAction ctx catalog db tamedCache owner action
      = (db, tamedCache, AdoptOutcome.capacityReached) := by
  unfold createPetAction
  rw [hen]
  rw [if_neg (by decide)]
  rw [if_neg (by rw [hlive]; exact fun h => by cases h)]
  rw [if_neg (by rw [hexo]; simp)]
  rw [if_neg (by rw [hexo]; simp)]
  rw [if_pos (by rw [htrack]; simp [hcap, hcount])]

theorem c8_witness :
    createPetAction ctx0 [] db2 none 7 1201 = (db2, none, AdoptOutcome.capacityReached) :=
  c8_capacity ctx0 [] db2 none 7 1201 rfl rfl (by decide) rfl (by decide) (by decide)

/-! ## C5: browse pagination -/

theorem browseMaxPage_eq_ceil (n : Nat) :
    browseMaxPage n = (n + PageSize - 1) / PageSize := by
  rw [browseMaxPage]
  simp only [PageSize]
  have hdm := Nat.div_add_mod n 13
  have hm : n % 13 < 13 := Nat.mod_lt _ (by omega)
  rcases Nat.eq_zero_or_pos (n % 13) with h | h
  · rw [if_pos h]
    have h2 : n + 13 - 1 = 13 * (n / 13) + 12 := by omega
    rw [h2, Nat.mul_add_div (show (0:Nat) < 13 by omega) (n / 13) 12]
  · rw [if_neg (by omega)]
    have h2 : n + 13 - 1 = 13 * (n / 13 + 1) + (n % 13 - 1) := by omega
    rw [h2, Nat.mul_add_div (show (0:Nat) < 13 by omega) (n / 13 + 1) (n % 13 - 1),
      Nat.div_eq_of_lt (show n % 13 - 1 < 13 by omega)]

theorem addPetsLoop_slice (tamed : List Nat) (page : Nat) (l : List PetInfo) (c : Nat) :
    addPetsLoop tamed page l c
      = ((l.drop ((page - 1) * PageSize + 1 - c)).take
          ((page * PageSize + 1 - c) - ((page - 1) * PageSize + 1 - c))).map
          (itemFor tamed) := by
  induction l generalizing c with
  | nil => simp [addPetsLoop]
  | cons pet rest ih =>
    have hlohi : (page - 1) * PageSize ≤ page * PageSize := by
      simp only [PageSize]
      omega
    rw [addPetsLoop]
    by_cases hcond : ((page - 1) * PageSize < c ∧ c ≤ page * PageSize)
    · rw [if_pos hcond, ih (c + 1)]
      have h0 : (page - 1) * PageSize + 1 - c = 0 := by omega
      have h0' : (page - 1) * PageSize + 1 - (c + 1) = 0 := by omega
      have h1 : page * PageSize + 1 - c = (page * PageSize - c) + 1 := by omega
      have h1' : page * PageSize + 1 - (c + 1) = page * PageSize - c := by omega
      rw [h0, h0', h1, h1']
      simp only [List.drop_zero, Nat.sub_zero, List.take_succ_cons, List.map_cons]
    · rw [if_neg hcond, ih (c + 1)]
      rcases le_or_lt c ((page - 1) * PageSize) with hc | hc
      · have h1 : (page - 1) * PageSize + 1 - c = ((page - 1) * PageSize - c) + 1 := by
          omega
        have h2 : (page - 1) * PageSize + 1 - (c + 1) = (page - 1) * PageSize - c := by
          omega
        rw [h1, h2, List.drop_succ_cons]
        have h3 : (page * PageSize + 1 - c) - (((page - 1) * PageSize - c) + 1)
            = (page * PageSize + 1 - (c + 1)) - ((page - 1) * PageSize - c) := by
          omega
        rw [h3]
      · have hgt : page * PageSize < c := by omega
        have h1 : page * PageSize + 1 - c = 0 := by omega
        have h2 : page * PageSize + 1 - (c + 1) = 0 := by omega
        have h3 : (page - 1) * PageSize + 1 - c = 0 := by omega
        have h4 : (page - 1) * PageSize + 1 - (c + 1) = 0 := by omega
        rw [h1, h2, h3, h4]
        simp

theorem addPetsToGossip_slice (tamed : List Nat) (pets : List PetInfo) (page : Nat)
    (hpage : 1 ≤ page) :
    addPetsToGossip tamed pets page
      = ((pets.drop ((page - 1) * PageSize)).take PageSize).map (itemFor tamed) := by
  rw [addPetsToGossip, addPetsLoop_slice]
  have h1 : (page - 1) * PageSize + 1 - 1 = (page - 1) * PageSize := by omega
  rw [h1]
  have h2 : page * PageSize + 1 - 1 - (page - 1) * PageSize = PageSize := by
    simp only [PageSize]
    omega
  rw [h2]

theorem range_flatMap_chunks {α : Type} (l : List α) (p : Nat) (m : Nat) :
    (List.range m).flatMap (fun k => (l.drop (k * p)).take p) = l.take (m * p) := by
  induction m with
  | zero => simp
  | succ m ih =>
    rw [List.range_succ, List.flatMap_append, ih]
    simp only [List.flatMap_cons, List.flatMap_nil, List.append_nil]
    rw [Nat.succ_mul, List.take_add]

theorem mem_browseNormal_iff (tamed : List Nat) (pets : List PetInfo) (action : Nat)
    (it : GItem) :
    it ∈ browseNormal tamed pets action ↔
      (it = backItem
        ∨ (1 < action - PetsStart + 1 ∧ it = prevItemN (action - PetsStart + 1))
        ∨ (action - PetsStart + 1 < browseMaxPage pets.length
            ∧ it = nextItemN (action - PetsStart + 1))
        ∨ it ∈ addPetsToGossip tamed pets (action - PetsStart + 1)) := by
  simp only [browseNormal]
  constructor
  · intro hmem
    rcases List.mem_append.mp hmem with hmem1 | hx
    · rcases List.mem_append.mp hmem1 with hmem2 | hx
      · rcases List.mem_append.mp hmem2 with hx | hx
        · exact Or.inl (List.mem_singleton.mp hx)
        · obtain ⟨hc, hx⟩ := List.mem_ite_nil_right.mp hx
          exact Or.inr (Or.inl ⟨hc, List.mem_singleton.mp hx⟩)
      · obtain ⟨hc, hx⟩ := List.mem_ite_nil_right.mp hx
        exact Or.inr (Or.inr (Or.inl ⟨hc, List.mem_singleton.mp hx⟩))
    · exact Or.inr (Or.inr (Or.inr hx))
  · rintro (rfl | ⟨hc, rfl⟩ | ⟨hc, rfl⟩ | hx)
    · exact List.mem_append.mpr (Or.inl (List.mem_append.mpr (Or.inl
        (List.mem_append.mpr (Or.inl (List.mem_singleton.mpr rfl))))))
    · exact List.mem_append.mpr (Or.inl (List.mem_append.mpr (Or.inl
        (List.mem_append.mpr (Or.inr
          (List.mem_ite_nil_right.mpr ⟨hc, List.mem_singleton.mpr rfl⟩))))))
    · exact List.mem_append.mpr (Or.inl (List.mem_append.mpr (Or.inr
        (List.mem_ite_nil_right.mpr ⟨hc, List.mem_singleton.mpr rfl⟩))))
    · exact List.mem_append.mpr (Or.inr hx)

theorem itemFor_action (tamed : List Nat) (pet : PetInfo) :
    (itemFor tamed pet).action = 0 ∨ PetEntryOffset ≤ (itemFor tamed pet).action := by
  unfold itemFor
  split_ifs <;> simp [PetEntryOffset]

/-- C5: for the browse-normal render, maxPage is the ceiling of bucket size
over page size; the previous item is emitted iff page exceeds 1 and the
next item iff page is below maxPage; the listed items are exactly the
page window of the bucket, at most PageSize of them; and the windows of
pages 1..maxPage partition the bucket. -/
theorem c5_browse_pagination (tamed : List Nat) (pets : List PetInfo) (action : Nat)
    (h : IsBrowseNormal action = true) :
    browseMaxPage pets.length = (pets.length + PageSize - 1) / PageSize
    ∧ (prevItemN (action - PetsStart + 1) ∈ browseNormal tamed pets action
        ↔ 1 < action - PetsStart + 1)
    ∧ (nextItemN (action - PetsStart + 1) ∈ browseNormal tamed pets action
        ↔ action - PetsStart + 1 < browseMaxPage pets.length)
    ∧ addPetsToGossip tamed pets (action - PetsStart + 1)
        = ((pets.drop ((action - PetsStart) * PageSize)).take PageSize).map (itemFor tamed)
    ∧ (List.range (browseMaxPage pets.length)).flatMap
        (fun k => (pets.drop (k * PageSize)).take PageSize) = pets
    ∧ (addPetsToGossip tamed pets (action - PetsStart + 1)).length ≤ PageSize
    ∧ (∀ c, 1 ≤ c → c ≤ pets.length →
        ∃! pg, 1 ≤ pg ∧ pg ≤ browseMaxPage pets.length
          ∧ (pg - 1) * PageSize < c ∧ c ≤ pg * PageSize) := by
  have hb : PetsStart ≤ action ∧ action < ExoticStart := by
    simpa [IsBrowseNormal, Bool.and_eq_true] using h
  have hpage1 : 1 ≤ action - PetsStart + 1 := by omega
  have hpageHi : action - PetsStart + 1 ≤ 100 := by
    simp only [PetsStart, ExoticStart] at hb ⊢
    omega
  have hslice := addPetsToGossip_slice tamed pets (action - PetsStart + 1) hpage1
  have hsub : (action - PetsStart + 1) - 1 = action - PetsStart := by omega
  rw [hsub] at hslice
  have hceil := browseMaxPage_eq_ceil pets.length
  have hcover : pets.length ≤ browseMaxPage pets.length * PageSize := by
    rw [hceil]
    have hdm := Nat.div_add_mod (pets.length + PageSize - 1) PageSize
    have hm : (pets.length + PageSize - 1) % PageSize < PageSize :=
      Nat.mod_lt _ (by decide)
    simp only [PageSize] at hdm hm ⊢
    omega
  have hpetact : ∀ it ∈ addPetsToGossip tamed pets (action - PetsStart + 1),
      it.action = 0 ∨ PetEntryOffset ≤ it.action := by
    intro it hit
    rw [hslice] at hit
    obtain ⟨pet, _, rfl⟩ := List.mem_map.mp hit
    exact itemFor_action tamed pet
  have hb' : 501 ≤ action ∧ action < 601 := hb
  refine ⟨hceil, ?_, ?_, hslice, ?_, ?_, ?_⟩
  · constructor
    · intro hmem
      rcases (mem_browseNormal_iff tamed pets action _).mp hmem with
        heq | ⟨hp, _⟩ | ⟨_, heq⟩ | hmem'
      · exact absurd heq
          (by simp [prevItemN, backItem, GOSSIP_ICON_INTERACT_1, GOSSIP_ICON_TALK])
      · exact hp
      · exact absurd heq (by simp [prevItemN, nextItemN])
      · exfalso
        have hact : (prevItemN (action - PetsStart + 1)).action
            = PetsStart + (action - PetsStart + 1) - 2 := rfl
        rcases hpetact _ hmem' with h0 | h0 <;>
          (rw [hact] at h0; simp only [PetsStart, PetEntryOffset] at h0; omega)
    · intro hlt
      exact (mem_browseNormal_iff tamed pets action _).mpr (Or.inr (Or.inl ⟨hlt, rfl⟩))
  · constructor
    · intro hmem
      rcases (mem_browseNormal_iff tamed pets action _).mp hmem with
        heq | ⟨_, heq⟩ | ⟨hn, _⟩ | hmem'
      · exact absurd heq
          (by simp [nextItemN, backItem, GOSSIP_ICON_INTERACT_1, GOSSIP_ICON_TALK])
      · exact absurd heq (by simp [prevItemN, nextItemN])
      · exact hn
      · exfalso
        have hact : (nextItemN (action - PetsStart + 1)).action
            = PetsStart + (action - PetsStart + 1) := rfl
        rcases hpetact _ hmem' with h0 | h0 <;>
          (rw [hact] at h0; simp only [PetsStart, PetEntryOffset] at h0; omega)
    · intro hlt
      exact (mem_browseNormal_iff tamed pets action _).mpr
        (Or.inr (Or.inr (Or.inl ⟨hlt, rfl⟩)))
  · rw [range_flatMap_chunks]
    exact List.take_of_length_le hcover
  · rw [hslice, List.length_map]
    exact le_trans (List.length_take_le _ _) (le_refl _)
  · intro c hc1 hcn
    rw [hceil]
    simp only [PageSize]
    refine ⟨(c - 1) / 13 + 1, ⟨by omega, by omega, by omega, by omega⟩, ?_⟩
    intro y hy
    obtain ⟨hy1, hy2, hy3, hy4⟩ := hy
    omega

theorem c5_witness :
    IsBrowseNormal 501 = true
    ∧ (browseMaxPage pets0.length = (pets0.length + PageSize - 1) / PageSize
      ∧ (prevItemN (501 - PetsStart + 1) ∈ browseNormal [] pets0 501
          ↔ 1 < 501 - PetsStart + 1)
      ∧ (nextItemN (501 - PetsStart + 1) ∈ browseNormal [] pets0 501
          ↔ 501 - PetsStart + 1 < browseMaxPage pets0.length)
      ∧ addPetsToGossip [] pets0 (501 - PetsStart + 1)
          = ((pets0.drop ((501 - PetsStart) * PageSize)).take PageSize).map (itemFor [])
      ∧ (List.range (browseMaxPage pets0.length)).flatMap
          (fun k => (pets0.drop (k * PageSize)).take PageSize) = pets0
      ∧ (addPetsToGossip [] pets0 (501 - PetsStart + 1)).length ≤ PageSize
      ∧ (∀ c, 1 ≤ c → c ≤ pets0.length →
          ∃! pg, 1 ≤ pg ∧ pg ≤ browseMaxPage pets0.length
            ∧ (pg - 1) * PageSize < c ∧ c ≤ pg * PageSize)) :=
  ⟨by decide, c5_browse_pagination [] pets0 501 (by decide)⟩

/-! ## C6: tracked delete -/

theorem stm_page (trackOn : Bool) (catalog : List PetInfo) (st : PState)
    (owner page : Nat) :
    (showTrackedPetsMenu trackOn catalog st owner page).2.page = page := rfl

theorem stm_items_of_none (catalog : List PetInfo) (st : PState) (owner page : Nat)
    (h : st.trackedCache = none) :
    (showTrackedPetsMenu true catalog st owner page).2.items
      = trackedSlotItems catalog
          (((listTracked st.db owner).drop ((page - 1) * TrackedPageSize)).take
            TrackedPageSize) 0 := by
  obtain ⟨db0, tc0, tac0, sm0, er0, re0⟩ := st
  change tc0 = none at h
  subst h
  rfl

theorem clamp_eq (p0 mp : Nat) (h : 1 ≤ p0) :
    (if (if p0 > mp ∧ mp > 0 then mp else p0) = 0 then 1
      else if p0 > mp ∧ mp > 0 then mp else p0)
    = if p0 > mp ∧ mp > 0 then mp else p0 := by
  split_ifs <;> omega

/-- C6: the tracked-delete action removes exactly the (owner, entry) row
selected through the slot map, rebuilds the tracked-pets cache from the
new table state, removes the entry from the tamed-entry cache, and
re-renders the tracked menu at the requested page clamped to the last
valid page; deleting the only tracked record yields an empty item list at
page 1. -/
theorem c6_tracked_delete (catalog : List PetInfo) (st : PState) (owner idx entry : Nat)
    (hslot : (st.slotMap.getD []).lookup idx = some entry) :
    ∃ st' r, gossipTrackedDelete true catalog st owner (DeleteBase + idx) = (st', some r)
      ∧ (∀ row ∈ st'.db, ¬(row.owner = owner ∧ row.entry = entry))
      ∧ (∀ row ∈ st.db, ¬(row.owner = owner ∧ row.entry = entry) → row ∈ st'.db)
      ∧ st'.trackedCache = some (listTracked st'.db owner)
      ∧ (∀ l, st'.tamedCache = some l → entry ∉ l)
      ∧ (let mp := (((st.db.filter (fun x => !(x.owner == owner && x.entry == entry))).filter
            (fun x => x.owner == owner)).length + TrackedPageSize - 1) / TrackedPageSize
         r.page = if idx / TrackedPageSize + 1 > mp ∧ mp > 0 then mp
                  else idx / TrackedPageSize + 1)
      ∧ ((∀ row ∈ st.db, row.owner = owner → row.entry = entry) → idx < TrackedPageSize →
          r.items = [] ∧ r.page = 1) := by
  simp only [gossipTrackedDelete]
  rw [show DeleteBase + idx - DeleteBase = idx from by omega, hslot]
  refine ⟨_, _, rfl, ?_, ?_, ?_, ?_, ?_, ?_⟩
  · intro row hrow
    have hrow' : row ∈ st.db.filter (fun r => !(r.owner == owner && r.entry == entry)) :=
      hrow
    have hp := (List.mem_filter.mp hrow').2
    simp only [Bool.not_eq_true', Bool.and_eq_false_iff, beq_eq_false_iff_ne] at hp
    rintro ⟨h1, h2⟩
    rcases hp with hp | hp <;> exact hp (by assumption)
  · intro row hrow hne
    have hmem : row ∈ st.db.filter (fun r => !(r.owner == owner && r.entry == entry)) := by
      refine List.mem_filter.mpr ⟨hrow, ?_⟩
      simp only [Bool.not_eq_true', Bool.and_eq_false_iff, beq_eq_false_iff_ne]
      by_cases h1 : row.owner = owner
      · exact Or.inr (fun h2 => hne ⟨h1, h2⟩)
      · exact Or.inl h1
    exact hmem
  · rfl
  · intro l hl
    have hl' : Option.map (List.filter (fun e => !(e == entry))) st.tamedCache = some l :=
      hl
    cases htc : st.tamedCache with
    | none => rw [htc] at hl'; cases hl'
    | some l0 =>
      rw [htc] at hl'
      simp only [Option.map_some'] at hl'
      injection hl' with hl0
      subst hl0
      intro hmem
      have := (List.mem_filter.mp hmem).2
      simp at this
  · exact clamp_eq (idx / TrackedPageSize + 1) _ (Nat.le_add_left 1 _)
  · intro honly hidx
    have hfil : (st.db.filter (fun r => !(r.owner == owner && r.entry == entry))).filter
        (fun r => r.owner == owner) = [] := by
      rw [List.filter_eq_nil_iff]
      intro row hrow
      have hp := (List.mem_filter.mp hrow).2
      simp only [Bool.not_eq_true', Bool.and_eq_false_iff, beq_eq_false_iff_ne] at hp
      simp only [beq_iff_eq, Bool.not_eq_true]
      intro hown
      have hown' : row.owner = owner := by simpa using hown
      have hent := honly row (List.mem_filter.mp hrow).1 hown'
      rcases hp with hp | hp
      · exact hp hown'
      · exact hp hent
    have hlt : listTracked (st.db.filter (fun r => !(r.owner == owner && r.entry == entry)))
        owner = [] := by
      rw [listTracked, hfil]
      rfl
    have hidx' : idx < 10 := hidx
    constructor
    · rw [stm_items_of_none _ _ _ _ rfl]
      dsimp only
      rw [hlt]
      simp [trackedSlotItems]
    · rw [stm_page]
      simp only [hfil, List.length_nil, TrackedPageSize]
      rw [Nat.div_eq_of_lt hidx']
      norm_num

theorem c6_witness :
    (delSt0.slotMap.getD []).lookup 0 = some 42
    ∧ (∃ st' r, gossipTrackedDelete true [] delSt0 7 (DeleteBase + 0) = (st', some r)
      ∧ (∀ row ∈ st'.db, ¬(row.owner = 7 ∧ row.entry = 42))
      ∧ (∀ row ∈ delSt0.db, ¬(row.owner = 7 ∧ row.entry = 42) → row ∈ st'.db)
      ∧ st'.trackedCache = some (listTracked st'.db 7)
      ∧ (∀ l, st'.tamedCache = some l → 42 ∉ l)
      ∧ (let mp := (((delSt0.db.filter (fun x => !(x.owner == 7 && x.entry == 42))).filter
            (fun x => x.owner == 7)).length + TrackedPageSize - 1) / TrackedPageSize
         r.page = if 0 / TrackedPageSize + 1 > mp ∧ mp > 0 then mp
                  else 0 / TrackedPageSize + 1)
      ∧ ((∀ row ∈ delSt0.db, row.owner = 7 → row.entry = 42) → 0 < TrackedPageSize →
          r.items = [] ∧ r.page = 1)) :=
  ⟨rfl, c6_tracked_delete [] delSt0 7 0 42 rfl⟩

/-! ## C10: deleting a tracked pet leaves the rename-pending state armed -/

/-- C10: the tracked-delete action leaves the rename-pending flag and its
target entry untouched (still armed), so a subsequent confirm command
still passes the pending-rename check, reports success, clears the flag
and target, and the rename UPDATE against the already-deleted entry
changes no row of the table. -/
theorem c10_delete_keeps_rename_armed (catalog : List PetInfo) (st : PState)
    (owner idx tEntry : Nat) (deny : List (List Char)) (args : List Char)
    (hpend : st.expectRename = some true)
    (htarget : st.renameEntry = some tEntry)
    (hslot : (st.slotMap.getD []).lookup idx = some tEntry)
    (hne : trim args ≠ [])
    (hval : isValidPetName (trim args) = true)
    (hprof : isProfane true deny (trim args) = false) :
    ∃ st' r, gossipTrackedDelete true catalog st owner (DeleteBase + idx) = (st', some r)
      ∧ st'.expectRename = some true
      ∧ st'.renameEntry = some tEntry
      ∧ (handlePetnameRename true deny st' owner args).2 = RenameResult.renamed
      ∧ (handlePetnameRename true deny st' owner args).1.db = st'.db
      ∧ (handlePetnameRename true deny st' owner args).1.expectRename = none
      ∧ (handlePetnameRename true deny st' owner args).1.renameEntry = none := by
  obtain ⟨st', r, heq, hexp, hrenE, hrows⟩ : ∃ st' r,
      gossipTrackedDelete true catalog st owner (DeleteBase + idx) = (st', some r)
      ∧ st'.expectRename = st.expectRename
      ∧ st'.renameEntry = st.renameEntry
      ∧ ∀ row ∈ st'.db, ¬(row.owner = owner ∧ row.entry = tEntry) := by
    simp only [gossipTrackedDelete]
    rw [show DeleteBase + idx - DeleteBase = idx from by omega, hslot]
    refine ⟨_, _, rfl, rfl, rfl, ?_⟩
    intro row hrow
    have hrow' : row ∈ st.db.filter (fun r => !(r.owner == owner && r.entry == tEntry)) :=
      hrow
    have hp := (List.mem_filter.mp hrow').2
    simp only [Bool.not_eq_true', Bool.and_eq_false_iff, beq_eq_false_iff_ne] at hp
    rintro ⟨h1, h2⟩
    rcases hp with hp | hp <;> exact hp (by assumption)
  have hp' : st'.expectRename = some true := by rw [hexp, hpend]
  have ht' : st'.renameEntry = some tEntry := by rw [hrenE, htarget]
  have hren := handlePetnameRename_pending true deny st' owner args tEntry hp' ht'
  have hnid : ¬(trim args).isEmpty = true := by
    simpa [List.isEmpty_iff] using hne
  rw [if_neg hnid] at hren
  rw [if_neg (by simp [hval, hprof]
      : ¬(!isValidPetName (trim args) || isProfane true deny (trim args)) = true)] at hren
  have hmapid : renameDbUpdate st'.db owner tEntry (trim args) = st'.db := by
    have hid : ∀ rrow ∈ st'.db,
        (if rrow.owner = owner ∧ rrow.entry = tEntry
          then { rrow with name := String.mk (trim args) } else rrow) = rrow := by
      intro rrow hr
      rw [if_neg (hrows rrow hr)]
    have h2 : st'.db.map (fun rrow =>
        if rrow.owner = owner ∧ rrow.entry = tEntry
          then { rrow with name := String.mk (trim args) } else rrow) = st'.db.map id :=
      List.map_congr_left hid
    rw [renameDbUpdate, h2, List.map_id]
  refine ⟨st', r, heq, hp', ht', ?_, ?_, ?_, ?_⟩
  · rw [hren]
  · rw [hren]
    show renameDbUpdate st'.db owner tEntry (trim args) = st'.db
    exact hmapid
  · rw [hren]
  · rw [hren]

theorem c10_witness :
    ∃ st' r, gossipTrackedDelete true [] renSt0 7 (DeleteBase + 0) = (st', some r)
      ∧ st'.expectRename = some true
      ∧ st'.renameEntry = some 42
      ∧ (handlePetnameRename true [] st' 7 ("Fluffy".toList)).2 = RenameResult.renamed
      ∧ (handlePetnameRename true [] st' 7 ("Fluffy".toList)).1.db = st'.db
      ∧ (handlePetnameRename true [] st' 7 ("Fluffy".toList)).1.expectRename = none
      ∧ (handlePetnameRename true [] st' 7 ("Fluffy".toList)).1.renameEntry = none :=
  c10_delete_keeps_rename_armed [] renSt0 7 0 42 [] ("Fluffy".toList) rfl rfl rfl
    (by decide) (by decide) (by decide)

end Beastmaster
